import Mathlib

/-!
Verification development for the refresh-scheduler core of the
gemini-business2api repository.

The definitions below are a shallow embedding of the Python sources:
  worker/refresh_service.py  (scheduler, due-set, task execution engine)
  worker/gemini_automation.py (login flow: send-code retries, code polling)
  core/cfmail_client.py       (poll_for_code)

Machine conventions: timestamps are rationals (seconds), calendar dates are
integers (day numbers), strings model the account record text fields where
the Python code only tests truthiness and equality.  External effects
(clock reads, browser clicks, mail fetches, the cancellation flag) are
passed in as explicit functions of an event index.
-/

namespace GeminiRefresh

/-- Account record as read from the Account Store.  Fields the Python code
reads with `account.get(...)`; an absent or empty string field is `""`,
an absent or unparseable temporal field is `none`. -/
structure Account where
  id : String
  disabled : Bool
  mail_provider : String
  mail_client_id : String
  mail_refresh_token : String
  mail_password : String
  email_password : String
  mail_jwt_token : String
  expires_at : Option ℚ
  trial_end : Option ℤ

/-- The configuration fields consulted by the due-set and deletion
computations (`config.basic` and `config.retry` in the source). -/
structure Config where
  freemail_jwt_token : String
  refresh_window_hours : ℚ
  refresh_cooldown_hours : ℚ

/-- Model of the Python `str.lower()` call on provider tags (character-wise
lowering; written out so that it evaluates inside the kernel). -/
def lowerString (s : String) : String := ⟨s.data.map Char.toLower⟩

/-- Effective mail provider, from `_get_expiring_accounts`: the lowered tag,
with the empty tag replaced by `microsoft` when an OAuth field is present
and by `duckmail` otherwise. -/
def effectiveMailProvider (a : Account) : String :=
  let mp := lowerString a.mail_provider
  if mp = "" then
    if a.mail_client_id ≠ "" ∨ a.mail_refresh_token ≠ "" then "microsoft" else "duckmail"
  else mp

/-- Mail-binding completeness test performed inside the per-account loop of
`_get_expiring_accounts` (the chain of `continue` statements). -/
def mailBindingOk (cfg : Config) (a : Account) : Bool :=
  let mp := effectiveMailProvider a
  let pwd := if a.mail_password ≠ "" then a.mail_password else a.email_password
  if mp = "microsoft" then decide (a.mail_client_id ≠ "" ∧ a.mail_refresh_token ≠ "")
  else if mp = "duckmail" ∨ mp = "moemail" then decide (pwd ≠ "")
  else if mp = "freemail" then decide (cfg.freemail_jwt_token ≠ "")
  else if mp = "gptmail" then true
  else false

/-- One account record passes the due-set filter of `_get_expiring_accounts`:
nonempty id, not disabled, complete mail binding, a parseable `expires_at`
whose remaining hours do not exceed the refresh window, and not inside the
cooldown window since the last successful refresh. -/
def dueFilter (cfg : Config) (now : ℚ) (cooldownTable : String → Option ℚ)
    (a : Account) : Bool :=
  if a.id = "" then false
  else if a.disabled then false
  else if !(mailBindingOk cfg a) then false
  else
    match a.expires_at with
    | none => false
    | some e =>
      if (e - now) / 3600 > cfg.refresh_window_hours then false
      else
        match cooldownTable a.id with
        | some ts => if now - ts < cfg.refresh_cooldown_hours * 3600 then false else true
        | none => true

/-- `_get_expiring_accounts`: the ids of the records passing the filter,
in input order. -/
def getExpiringAccounts (cfg : Config) (now : ℚ) (cooldownTable : String → Option ℚ)
    (accounts : List Account) : List String :=
  (accounts.filter (dueFilter cfg now cooldownTable)).map (·.id)

/-- One account record is selected by `_get_expired_account_ids`:
nonempty id, not disabled, with a parsed `trial_end` date strictly before
today. -/
def expiredFilter (today : ℤ) (a : Account) : Bool :=
  if a.id = "" then false
  else if a.disabled then false
  else
    match a.trial_end with
    | none => false
    | some d => decide (d < today)

/-- `_get_expired_account_ids`. -/
def getExpiredAccountIds (today : ℤ) (accounts : List Account) : List String :=
  (accounts.filter (expiredFilter today)).map (·.id)

/-- The provider tags the due-set filter recognizes. -/
def recognizedProviders : List String :=
  ["microsoft", "duckmail", "moemail", "freemail", "gptmail"]

/-- Modelled from the wording of the specification (section 4.1 table), for
comparison with `mailBindingOk`: the provider tag after the fallback the
spec describes for unrecognized or empty tags. -/
def specProviderTag (a : Account) : String :=
  let mp := lowerString a.mail_provider
  if mp ∈ recognizedProviders then mp
  else if a.mail_client_id ≠ "" ∨ a.mail_refresh_token ≠ "" then "microsoft"
  else "duckmail"

/-- Modelled from the wording of the specification (section 4.1 table), for
comparison with `mailBindingOk`: the completeness rule per provider tag,
with the freemail row reading a global or per-account JWT token. -/
def specBindingComplete (cfg : Config) (a : Account) : Bool :=
  let tag := specProviderTag a
  if tag = "microsoft" then decide (a.mail_client_id ≠ "" ∧ a.mail_refresh_token ≠ "")
  else if tag = "duckmail" ∨ tag = "moemail" then
    decide (a.mail_password ≠ "" ∨ a.email_password ≠ "")
  else if tag = "freemail" then
    decide (cfg.freemail_jwt_token ≠ "" ∨ a.mail_jwt_token ≠ "")
  else true

/-- Batch partitioning from `start_polling`:
`for i in range(0, len(expiring), batch_size): expiring[i:i+batch_size]`. -/
def batches (b : ℕ) (l : List String) : List (List String) :=
  if h : b = 0 ∨ l = [] then []
  else l.take b :: batches b (l.drop b)
termination_by l.length
decreasing_by
  simp only [List.length_drop]
  push_neg at h
  have := List.length_pos.mpr h.2
  omega

/-- Number of batches computed in `start_polling`:
`(len(expiring) + batch_size - 1) // batch_size`. -/
def totalBatches (n b : ℕ) : ℕ := (n + b - 1) / b

/-! ## Task execution engine (`_run_refresh_task` / `_run_single_batch`) -/

/-- Task status values of the `TaskStatus` enum. -/
inductive TaskStatus where
  | pending
  | running
  | success
  | failed
  | cancelled
deriving DecidableEq

/-- What one account iteration of `_run_refresh_task` observes from
`loop.run_in_executor(self._executor, self._refresh_one, ...)`:
either a result dict carrying a success flag, a generic exception
(caught and turned into a failed result), or a `TaskCancelledError`
raised by a log append while the cancellation flag is set. -/
inductive StepOutcome where
  | res (success : Bool)
  | exn
  | cancelExn
deriving DecidableEq

/-- Success flag of the result dict the loop appends for one account:
a returned dict keeps its flag, a caught generic exception is recorded
as a failed result. -/
def outcomeSuccess (outcome : ℕ → StepOutcome) (i : ℕ) : Bool :=
  match outcome i with
  | .res b => b
  | _ => false

/-- Mutable progress of one `RefreshTask`, plus the scheduler-owned
cooldown table (`_refresh_timestamps`) the loop writes on success, plus
a record of which accounts `_refresh_one` was actually invoked for. -/
structure TaskState where
  status : TaskStatus
  progress : ℕ
  success_count : ℕ
  fail_count : ℕ
  results : List (String × Bool)
  finished_at : Option ℚ
  timestamps : String → Option ℚ
  attempted : List String

/-- Task state when `_run_single_batch` hands a fresh `RefreshTask`
(already marked running) to `_run_refresh_task`. -/
def initTask (t0 : String → Option ℚ) : TaskState :=
  { status := .running, progress := 0, success_count := 0, fail_count := 0,
    results := [], finished_at := none, timestamps := t0, attempted := [] }

/-- Lines 481-496 of refresh_service.py: append the result for account `a`,
bump `progress`, bump exactly one of `success_count` or `fail_count`, and
on success record the refresh time in the cooldown table. -/
def appendResult (st : TaskState) (a : String) (s : Bool) (t : ℚ) : TaskState :=
  { st with
    progress := st.progress + 1,
    results := st.results ++ [(a, s)],
    success_count := if s then st.success_count + 1 else st.success_count,
    fail_count := if s then st.fail_count else st.fail_count + 1,
    timestamps := if s then (fun x => if x = a then some t else st.timestamps x)
                  else st.timestamps }

/-- The per-account loop of `_run_refresh_task`, driven from
`_run_single_batch`.  `i` counts completed iterations.  The cancellation
flag is read at the top-of-loop check of iteration `i` (event `2*i`) and
at the unguarded log appends after the result of iteration `i` is
recorded (event `2*i + 1`); a set flag at the latter raises
`TaskCancelledError` out of the loop, which `_run_single_batch` catches
and turns into a cancelled task with a finish timestamp.  After the last
account, the flag decides between the cancelled terminal status and the
success/failed choice on `fail_count` (a flag set only at the final
completion log still ends cancelled through the catch in
`_run_single_batch`). -/
def runRefreshLoop (outcome : ℕ → StepOutcome) (clock : ℕ → ℚ)
    (cancelFlag : ℕ → Bool) : List String → ℕ → TaskState → TaskState
  | [], i, st =>
    if cancelFlag (2 * i) ∨ cancelFlag (2 * i + 1) then
      { st with status := .cancelled, finished_at := some (clock i) }
    else
      { st with status := if st.fail_count = 0 then .success else .failed,
                finished_at := some (clock i) }
  | a :: rest, i, st =>
    if cancelFlag (2 * i) then
      { st with status := .cancelled, finished_at := some (clock i) }
    else if outcome i = .cancelExn then
      { st with status := .cancelled, finished_at := some (clock i),
                attempted := st.attempted ++ [a] }
    else
      let st1 := appendResult { st with attempted := st.attempted ++ [a] } a
        (outcomeSuccess outcome i) (clock i)
      if cancelFlag (2 * i + 1) then
        { st1 with status := .cancelled, finished_at := some (clock i) }
      else runRefreshLoop outcome clock cancelFlag rest (i + 1) st1

/-- Run one batch: `_run_single_batch` builds the task and awaits
`_run_refresh_task` on its account list. -/
def runRefreshTask (outcome : ℕ → StepOutcome) (clock : ℕ → ℚ)
    (cancelFlag : ℕ → Bool) (accounts : List String)
    (t0 : String → Option ℚ) : TaskState :=
  runRefreshLoop outcome clock cancelFlag accounts 0 (initTask t0)

/-- The result list the loop accumulates for `accounts` starting at
iteration `i`, when no iteration is interrupted. -/
def resultList (outcome : ℕ → StepOutcome) : List String → ℕ → List (String × Bool)
  | [], _ => []
  | a :: rest, i => (a, outcomeSuccess outcome i) :: resultList outcome rest (i + 1)

/-- State after the loop has cleanly processed `accounts` starting at
iteration `i` (no cancellation observed). -/
def processedState (outcome : ℕ → StepOutcome) (clock : ℕ → ℚ) :
    List String → ℕ → TaskState → TaskState
  | [], _, st => st
  | a :: rest, i, st =>
    processedState outcome clock rest (i + 1)
      (appendResult { st with attempted := st.attempted ++ [a] } a
        (outcomeSuccess outcome i) (clock i))

/-! ## Login flow step 3: RequestCode (`_run_flow` / `_click_send_code_button`) -/

/-- `retry_delays` of `_click_send_code_button`. -/
def sendRetryDelays : List ℕ := [15, 30, 60]

/-- `max_send_attempts` of `_click_send_code_button`. -/
def maxSendAttempts : ℕ := 3

/-- `send_round_delays` of `_run_flow` step 3. -/
def sendRoundDelays : List ℕ := [15, 30, 60]

/-- `max_send_rounds` of `_run_flow` step 3. -/
def maxSendRounds : ℕ := 3

/-- Outcome of a send phase: whether a send was verified, how many button
clicks were attempted, and the sleep delays (seconds) in order. -/
structure SendResult where
  ok : Bool
  clicks : ℕ
  delays : List ℕ
deriving DecidableEq

/-- Page environment of one `_click_send_code_button` call: which way the
send button is found, and the verified outcome of each click (indexed by
a global click counter). -/
structure SendEnv where
  directBtn : Bool
  keywordBtn : Bool
  alreadyOnCodeInput : Bool
  click : ℕ → Bool

/-- The inner `for attempt in range(1, max_send_attempts + 1)` loop of
`_click_send_code_button`: click, verify; after every failed attempt
sleep `retry_delays[min(attempt - 1, len - 1)]` (also after the last
one) and retry.  `localIdx` is `attempt - 1`, `g` the global click
counter. -/
def clickAttemptLoop (click : ℕ → Bool) : ℕ → ℕ → ℕ → SendResult
  | 0, _, _ => ⟨false, 0, []⟩
  | r + 1, localIdx, g =>
    if click g then ⟨true, 1, []⟩
    else
      let d := sendRetryDelays.getD (min localIdx (sendRetryDelays.length - 1)) 0
      let rest := clickAttemptLoop click r (localIdx + 1) (g + 1)
      ⟨rest.ok, rest.clicks + 1, d :: rest.delays⟩

/-- `_click_send_code_button`: the direct-id button and the keyword button
both run the 3-attempt click loop; with no button but the code input
already present, it reports success without clicking; otherwise it
reports failure without clicking. -/
def clickSendCodeButton (env : SendEnv) (g : ℕ) : SendResult :=
  if env.directBtn then clickAttemptLoop env.click maxSendAttempts 0 g
  else if env.keywordBtn then clickAttemptLoop env.click maxSendAttempts 0 g
  else if env.alreadyOnCodeInput then ⟨true, 0, []⟩
  else ⟨false, 0, []⟩

/-- The outer `while True` round loop of `_run_flow` step 3: call
`_click_send_code_button`; on failure of round `roundIdx + 1` short of
`max_send_rounds`, sleep `send_round_delays[min(roundIdx, len - 1)]` and
retry; on failure of the last round give up. -/
def sendRoundsLoop (env : SendEnv) : ℕ → ℕ → ℕ → SendResult
  | 0, _, _ => ⟨false, 0, []⟩
  | r + 1, roundIdx, g =>
    let res := clickSendCodeButton env g
    if res.ok then ⟨true, res.clicks, res.delays⟩
    else if r = 0 then ⟨false, res.clicks, res.delays⟩
    else
      let d := sendRoundDelays.getD (min roundIdx (sendRoundDelays.length - 1)) 0
      let rest := sendRoundsLoop env r (roundIdx + 1) (g + res.clicks)
      ⟨rest.ok, res.clicks + rest.clicks, res.delays ++ d :: rest.delays⟩

/-- The whole RequestCode step of `_run_flow`. -/
def runFlowSendCode (env : SendEnv) : SendResult :=
  sendRoundsLoop env maxSendRounds 0 0

/-- Step 3 outcome: on exhausted rounds `_run_flow` returns
`{"success": False, "error": "send code failed after retries"}` and never
reaches step 4 (`_wait_for_code_input`). -/
def requestCodeStep (env : SendEnv) : Except String Unit :=
  if (runFlowSendCode env).ok then Except.ok () else
    Except.error "send code failed after retries"

/-- `_run_flow` reaches the wait-for-code-input step exactly when the send
phase reported success. -/
def reachesAwaitCodeInput (env : SendEnv) : Bool :=
  (runFlowSendCode env).ok

/-! ## Login flow step 5: AcquireCode (`_run_flow` / `poll_for_code`) -/

/-- The retry loop of `CloudflareMailClient.poll_for_code`: up to `r`
fetches of the mailbox, stopping at the first code.  Returns the code
found and the number of fetches performed; `g` is a global fetch
counter. -/
def pollAttempts (fetch : ℕ → Option String) : ℕ → ℕ → Option String × ℕ
  | 0, _ => (none, 0)
  | r + 1, g =>
    match fetch g with
    | some c => (some c, 1)
    | none =>
      let rest := pollAttempts fetch r (g + 1)
      (rest.1, rest.2 + 1)

/-- `CloudflareMailClient.poll_for_code(timeout, interval, since_time)`:
returns immediately when no address is set, otherwise fetches up to
`max(1, timeout // interval)` times. -/
def poll_for_code (hasEmail : Bool) (fetch : ℕ → Option String)
    (timeout interval : ℕ) (g : ℕ) : Option String × ℕ :=
  if !hasEmail then (none, 0)
  else pollAttempts fetch (max 1 (timeout / interval)) g

/-- Mailbox environment of the AcquireCode step: whether the client has an
address, the outcome of each mailbox fetch, and whether a resend button
was found by `_click_resend_code_button`. -/
structure AcquireEnv where
  hasEmail : Bool
  fetch : ℕ → Option String
  resendBtn : Bool

/-- `_run_flow` step 5 (lines 405-423): one
`poll_for_code(timeout=15, interval=5)`; on timeout, wait and click the
resend button, then poll once more with the same arguments; report the
code or the timeout error.  Also returns the total number of mailbox
fetches. -/
def acquireCodeStep (env : AcquireEnv) : Except String String × ℕ :=
  let p1 := poll_for_code env.hasEmail env.fetch 15 5 0
  match p1.1 with
  | some c => (Except.ok c, p1.2)
  | none =>
    if env.resendBtn then
      let p2 := poll_for_code env.hasEmail env.fetch 15 5 p1.2
      match p2.1 with
      | some c => (Except.ok c, p1.2 + p2.2)
      | none => (Except.error "verification code timeout after resend", p1.2 + p2.2)
    else (Except.error "verification code timeout", p1.2)

/-- The code `_run_flow` step 6 submits: exactly the code step 5 acquired,
or nothing when step 5 failed. -/
def submittedCode (env : AcquireEnv) : Option String :=
  match (acquireCodeStep env).1 with
  | Except.ok c => some c
  | Except.error _ => none

/-! ## Daily trigger (`_wait_for_next_trigger`, daily mode) -/

/-- One pass of the daily-mode 30-second check loop at date `d` and
wall-clock time `t`: purge the fired keys of other days, then fire for
the first configured time equal to `t` whose key is not yet recorded.
Keys are `(date, time)` pairs modelling the `date_HH:MM` strings. -/
def triggerStep (times : List String) (s : List (String × String))
    (d t : String) : Bool × List (String × String) :=
  let s1 := s.filter (fun k => k.1 = d)
  if t ∈ times ∧ (d, t) ∉ s1 then (true, (d, t) :: s1)
  else (false, s1)

/-- Run the daily-mode check loop over a list of observed wall-clock times,
all on calendar date `d`, from initial fired-key set `s`.  Returns the
keys fired, in order. -/
def runTriggerDay (times : List String) (d : String) :
    List String → List (String × String) → List (String × String)
  | [], _ => []
  | t :: rest, s =>
    let r := triggerStep times s d t
    if r.1 then (d, t) :: runTriggerDay times d rest r.2
    else runTriggerDay times d rest r.2

/-- Consistency invariant of a task state (claim C10). -/
def taskInv (st : TaskState) : Prop :=
  st.progress = st.results.length ∧
  st.success_count = st.results.countP (fun p => p.2) ∧
  st.fail_count = st.results.countP (fun p => !p.2)

/-! ## Batch partitioning lemmas -/

theorem batches_join (b : ℕ) (hb : 1 ≤ b) :
    ∀ (n : ℕ) (l : List String), l.length ≤ n → (batches b l).flatten = l := by
  intro n
  induction n with
  | zero =>
    intro l hl
    have hnil : l = [] := List.eq_nil_of_length_eq_zero (Nat.le_zero.mp hl)
    subst hnil
    rw [batches]
    simp
  | succ n ih =>
    intro l hl
    rcases Decidable.em (l = []) with hnil | hne
    · subst hnil
      rw [batches]
      simp
    · rw [batches, dif_neg (by rintro (h0 | h1); exacts [by omega, hne h1])]
      simp only [List.flatten_cons]
      rw [ih (l.drop b) (by
        simp only [List.length_drop]
        have := List.length_pos.mpr hne
        omega)]
      exact List.take_append_drop b l

theorem batches_length (b : ℕ) (hb : 1 ≤ b) :
    ∀ (n : ℕ) (l : List String), l.length ≤ n →
      (batches b l).length = totalBatches l.length b := by
  intro n
  induction n with
  | zero =>
    intro l hl
    have hnil : l = [] := List.eq_nil_of_length_eq_zero (Nat.le_zero.mp hl)
    subst hnil
    rw [batches]
    simp [totalBatches, Nat.div_eq_of_lt (by omega : b - 1 < b)]
  | succ n ih =>
    intro l hl
    rcases Decidable.em (l = []) with hnil | hne
    · subst hnil
      rw [batches]
      simp [totalBatches, Nat.div_eq_of_lt (by omega : b - 1 < b)]
    · rw [batches, dif_neg (by rintro (h0 | h1); exacts [by omega, hne h1])]
      have hlen : 0 < l.length := List.length_pos.mpr hne
      simp only [List.length_cons]
      rw [ih (l.drop b) (by simp only [List.length_drop]; omega)]
      simp only [List.length_drop, totalBatches]
      rcases le_or_lt l.length b with hle | hlt
      · have h1 : l.length - b = 0 := by omega
        rw [h1]
        have h2 : (0 + b - 1) / b = 0 := Nat.div_eq_of_lt (by omega)
        have h3 : (l.length + b - 1) / b = 1 :=
          Nat.div_eq_of_lt_le (by omega) (by omega)
        omega
      · have h4 : l.length + b - 1 = (l.length - b + b - 1) + b := by omega
        rw [h4, Nat.add_div_right _ (by omega)]

theorem batches_sizes (b : ℕ) (hb : 1 ≤ b) :
    ∀ (n : ℕ) (l : List String), l.length ≤ n →
      ∀ c ∈ batches b l, c ≠ [] ∧ c.length ≤ b := by
  intro n
  induction n with
  | zero =>
    intro l hl
    have hnil : l = [] := List.eq_nil_of_length_eq_zero (Nat.le_zero.mp hl)
    subst hnil
    rw [batches]
    simp
  | succ n ih =>
    intro l hl c hc
    rcases Decidable.em (l = []) with hnil | hne
    · subst hnil
      rw [batches] at hc
      simp at hc
    · rw [batches, dif_neg (by rintro (h0 | h1); exacts [by omega, hne h1])] at hc
      have hlen : 0 < l.length := List.length_pos.mpr hne
      rcases List.mem_cons.mp hc with hhead | htail
      · subst hhead
        constructor
        · intro habs
          have : (l.take b).length = 0 := by rw [habs]; rfl
          rw [List.length_take] at this
          omega
        · rw [List.length_take]
          omega
      · exact ih (l.drop b) (by simp only [List.length_drop]; omega) c htail

/-- C3: for every due list and batch size B with B at least 1, the
scheduler loop in `start_polling` partitions the list into
`ceil(N/B) = (N + B - 1)/B` contiguous nonempty batches, processed in
order, whose concatenation is exactly the original list, so the input
order is preserved and no account is duplicated or dropped. -/
theorem scheduler_batch_partition (l : List String) (b : ℕ) (hb : 1 ≤ b) :
    (batches b l).length = totalBatches l.length b ∧
    (batches b l).flatten = l ∧
    ∀ c ∈ batches b l, c ≠ [] ∧ c.length ≤ b :=
  ⟨batches_length b hb l.length l le_rfl,
   batches_join b hb l.length l le_rfl,
   batches_sizes b hb l.length l le_rfl⟩

theorem scheduler_batch_partition_witness :
    (1:ℕ) ≤ 2 ∧
    ((batches 2 ["a1", "a2", "a3", "a4", "a5"]).length =
       totalBatches (["a1", "a2", "a3", "a4", "a5"] : List String).length 2 ∧
     (batches 2 ["a1", "a2", "a3", "a4", "a5"]).flatten = ["a1", "a2", "a3", "a4", "a5"] ∧
     ∀ c ∈ batches 2 ["a1", "a2", "a3", "a4", "a5"], c ≠ [] ∧ c.length ≤ 2) :=
  ⟨by decide, scheduler_batch_partition ["a1", "a2", "a3", "a4", "a5"] 2 (by decide)⟩

/-! ## Due-set and deletion filters -/

/-- C4: a disabled account record is excluded by the due-set filter
regardless of `expires_at`, and by the expired-deletion filter regardless
of `trial_end`; among records the deletion filter considers (enabled and
carrying an id), one whose `trial_end` is strictly before today is
selected and one whose `trial_end` equals today is not. -/
theorem disabled_and_trial_end_selection :
    (∀ (cfg : Config) (now : ℚ) (table : String → Option ℚ) (a : Account),
       a.disabled = true → dueFilter cfg now table a = false) ∧
    (∀ (today : ℤ) (a : Account), a.disabled = true →
       expiredFilter today a = false) ∧
    (∀ (today : ℤ) (a : Account) (d : ℤ), a.disabled = false → a.id ≠ "" →
       a.trial_end = some d → d < today → expiredFilter today a = true) ∧
    (∀ (today : ℤ) (a : Account), a.trial_end = some today →
       expiredFilter today a = false) := by
  refine ⟨?_, ?_, ?_, ?_⟩
  · intro cfg now table a ha
    simp [dueFilter, ha]
  · intro today a ha
    simp [expiredFilter, ha]
  · intro today a d h1 h2 h3 h4
    simp [expiredFilter, h1, h2, h3, h4]
  · intro today a h
    simp [expiredFilter, h, lt_irrefl]

theorem disabled_and_trial_end_selection_witness :
    ((⟨"x", true, "", "", "", "", "", "", none, none⟩ : Account).disabled = true ∧
     dueFilter ⟨"", 6, 2⟩ 0 (fun _ => none)
       ⟨"x", true, "", "", "", "", "", "", none, none⟩ = false) ∧
    expiredFilter 20000 ⟨"x", true, "", "", "", "", "", "", none, some 19000⟩ = false ∧
    ((19999 : ℤ) < 20000 ∧
     expiredFilter 20000 ⟨"y", false, "", "", "", "", "", "", none, some 19999⟩ = true) ∧
    expiredFilter 20000 ⟨"y", false, "", "", "", "", "", "", none, some 20000⟩ = false :=
  ⟨⟨rfl, disabled_and_trial_end_selection.1 ⟨"", 6, 2⟩ 0 (fun _ => none) _ rfl⟩,
   disabled_and_trial_end_selection.2.1 20000 _ rfl,
   ⟨by decide,
    disabled_and_trial_end_selection.2.2.1 20000 _ 19999 rfl (by decide) rfl (by decide)⟩,
   disabled_and_trial_end_selection.2.2.2 20000 _ rfl⟩

/-- C5: a successful refresh of the single account of an iteration writes
the iteration clock into the cooldown table; a failed refresh (failed
result dict or caught exception) leaves the table untouched; and the
due-set filter rejects any record whose cooldown entry is closer to `now`
than `refresh_cooldown_hours`, whatever its `expires_at`. -/
theorem cooldown_update_and_exclusion :
    (∀ (outcome : ℕ → StepOutcome) (clock : ℕ → ℚ) (cancelFlag : ℕ → Bool)
       (a : String) (t0 : String → Option ℚ),
       (∀ j, cancelFlag j = false) → outcome 0 = .res true →
       (runRefreshTask outcome clock cancelFlag [a] t0).timestamps a = some (clock 0)) ∧
    (∀ (outcome : ℕ → StepOutcome) (clock : ℕ → ℚ) (cancelFlag : ℕ → Bool)
       (a : String) (t0 : String → Option ℚ),
       (∀ j, cancelFlag j = false) → outcome 0 ≠ .cancelExn →
       outcomeSuccess outcome 0 = false →
       (runRefreshTask outcome clock cancelFlag [a] t0).timestamps = t0) ∧
    (∀ (cfg : Config) (now t : ℚ) (table : String → Option ℚ) (a : Account),
       table a.id = some t → now - t < cfg.refresh_cooldown_hours * 3600 →
       dueFilter cfg now table a = false) := by
  refine ⟨?_, ?_, ?_⟩
  · intro outcome clock cancelFlag a t0 hflag hres
    simp [runRefreshTask, runRefreshLoop, initTask, appendResult, outcomeSuccess,
      hres, hflag]
  · intro outcome clock cancelFlag a t0 hflag hnc hs
    simp [runRefreshTask, runRefreshLoop, initTask, appendResult, hs, hnc, hflag]
  · intro cfg now t table a htab hcd
    unfold dueFilter
    split_ifs <;> try rfl
    cases hexp : a.expires_at with
    | none => rfl
    | some e =>
      dsimp only
      split_ifs with hw
      · rfl
      · rw [htab]
        simp [hcd]

theorem cooldown_update_and_exclusion_witness :
    ((∀ j, (fun _ : ℕ => false) j = false) ∧
     (fun _ : ℕ => StepOutcome.res true) 0 = .res true ∧
     (runRefreshTask (fun _ => .res true) (fun i => (i : ℚ) + 100) (fun _ => false)
        ["acc"] (fun _ => none)).timestamps "acc" = some ((0 : ℚ) + 100)) ∧
    ((fun _ : ℕ => StepOutcome.exn) 0 ≠ .cancelExn ∧
     outcomeSuccess (fun _ => .exn) 0 = false ∧
     (runRefreshTask (fun _ => .exn) (fun i => (i : ℚ) + 100) (fun _ => false)
        ["acc"] (fun _ => none)).timestamps = (fun _ => none)) ∧
    ((fun x : String => if x = "a" then some (999 : ℚ) else none) "a" = some 999 ∧
     (1000 : ℚ) - 999 < (2 : ℚ) * 3600 ∧
     dueFilter ⟨"", 6, 2⟩ 1000 (fun x => if x = "a" then some 999 else none)
       ⟨"a", false, "", "", "", "", "", "", some 4600, none⟩ = false) :=
  ⟨⟨fun _ => rfl, rfl,
    cooldown_update_and_exclusion.1 (fun _ => .res true) (fun i => (i : ℚ) + 100)
      (fun _ => false) "acc" (fun _ => none) (fun _ => rfl) rfl⟩,
   ⟨by decide, rfl,
    cooldown_update_and_exclusion.2.1 (fun _ => .exn) (fun i => (i : ℚ) + 100)
      (fun _ => false) "acc" (fun _ => none) (fun _ => rfl) (by decide) rfl⟩,
   ⟨rfl, by norm_num,
    cooldown_update_and_exclusion.2.2 ⟨"", 6, 2⟩ 1000 999
      (fun x => if x = "a" then some 999 else none)
      ⟨"a", false, "", "", "", "", "", "", some 4600, none⟩ rfl (by norm_num)⟩⟩

/-! ## Binding completeness: code rule versus spec rule -/

theorem pwd_ite_ne_iff (x y : String) :
    (¬(if x = "" then y else x) = "") ↔ (¬x = "" ∨ ¬y = "") := by
  by_cases hx : x = ""
  · simp [hx]
  · simp [hx]

theorem mailBindingOk_implies_spec (cfg : Config) (a : Account)
    (h : mailBindingOk cfg a = true) : specBindingComplete cfg a = true := by
  simp only [mailBindingOk, effectiveMailProvider] at h
  simp only [specBindingComplete, specProviderTag]
  by_cases h0 : lowerString a.mail_provider = ""
  · by_cases hoauth : a.mail_client_id ≠ "" ∨ a.mail_refresh_token ≠ ""
    · simp [h0, hoauth, recognizedProviders] at h ⊢
      exact h
    · simp [h0, hoauth, recognizedProviders, pwd_ite_ne_iff] at h ⊢
      exact h
  · by_cases h1 : lowerString a.mail_provider = "microsoft"
    · simp [h1, recognizedProviders] at h ⊢
      exact h
    · by_cases h2 : lowerString a.mail_provider = "duckmail"
      · simp [h2, recognizedProviders, pwd_ite_ne_iff] at h ⊢
        exact h
      · by_cases h3 : lowerString a.mail_provider = "moemail"
        · simp [h3, recognizedProviders, pwd_ite_ne_iff] at h ⊢
          exact h
        · by_cases h4 : lowerString a.mail_provider = "freemail"
          · simp [h4, recognizedProviders] at h ⊢
            exact Or.inl h
          · by_cases h5 : lowerString a.mail_provider = "gptmail"
            · simp [h5, recognizedProviders]
            · simp [h0, h1, h2, h3, h4, h5] at h

theorem dueFilter_implies_binding (cfg : Config) (now : ℚ)
    (table : String → Option ℚ) (a : Account)
    (h : dueFilter cfg now table a = true) : mailBindingOk cfg a = true := by
  by_contra hb
  have hb0 : mailBindingOk cfg a = false := by
    cases hmb : mailBindingOk cfg a
    · rfl
    · exact absurd hmb hb
  unfold dueFilter at h
  rw [hb0] at h
  simp at h

/-- C6: the due-set filter admits a record only when the completeness rule
of the specification table holds for its provider tag (microsoft: client
id and refresh token; duckmail/moemail: a password-equivalent secret;
freemail: a global or per-account JWT token; gptmail: nothing; empty or
unrecognized tags resolved through the OAuth-field fallback), and a
record violating that rule is skipped by the filter rather than reported
as an error. -/
theorem due_set_binding_rules :
    (∀ (cfg : Config) (now : ℚ) (table : String → Option ℚ) (a : Account),
       dueFilter cfg now table a = true → specBindingComplete cfg a = true) ∧
    (∀ (cfg : Config) (now : ℚ) (table : String → Option ℚ) (a : Account),
       specBindingComplete cfg a = false → dueFilter cfg now table a = false) := by
  constructor
  · intro cfg now table a h
    exact mailBindingOk_implies_spec cfg a (dueFilter_implies_binding cfg now table a h)
  · intro cfg now table a hspec
    cases hdf : dueFilter cfg now table a
    · rfl
    · have := mailBindingOk_implies_spec cfg a
        (dueFilter_implies_binding cfg now table a hdf)
      rw [hspec] at this
      exact absurd this (by decide)

theorem due_set_binding_rules_witness :
    (dueFilter ⟨"", 6, 2⟩ 0 (fun _ => none)
       ⟨"m@x", false, "microsoft", "cid", "rtk", "", "", "", some 3600, none⟩ = true ∧
     specBindingComplete ⟨"", 6, 2⟩
       ⟨"m@x", false, "microsoft", "cid", "rtk", "", "", "", some 3600, none⟩ = true) ∧
    (specBindingComplete ⟨"", 6, 2⟩
       ⟨"m@y", false, "microsoft", "cid", "", "", "", "", some 3600, none⟩ = false ∧
     dueFilter ⟨"", 6, 2⟩ 0 (fun _ => none)
       ⟨"m@y", false, "microsoft", "cid", "", "", "", "", some 3600, none⟩ = false) :=
  ⟨⟨by
      have hl : lowerString "microsoft" = "microsoft" := by decide
      norm_num [dueFilter, mailBindingOk, effectiveMailProvider, hl]
      decide,
    due_set_binding_rules.1 ⟨"", 6, 2⟩ 0 (fun _ => none)
      ⟨"m@x", false, "microsoft", "cid", "rtk", "", "", "", some 3600, none⟩
      (by
        have hl : lowerString "microsoft" = "microsoft" := by decide
        norm_num [dueFilter, mailBindingOk, effectiveMailProvider, hl]
        decide)⟩,
   ⟨by
      have hl : lowerString "microsoft" = "microsoft" := by decide
      norm_num [specBindingComplete, specProviderTag, recognizedProviders, hl]
      try decide,
    due_set_binding_rules.2 ⟨"", 6, 2⟩ 0 (fun _ => none)
      ⟨"m@y", false, "microsoft", "cid", "", "", "", "", some 3600, none⟩
      (by
        have hl : lowerString "microsoft" = "microsoft" := by decide
        norm_num [specBindingComplete, specProviderTag, recognizedProviders, hl]
        try decide)⟩⟩

/-! ## Task execution engine lemmas -/

theorem resultList_length (outcome : ℕ → StepOutcome) :
    ∀ (l : List String) (i : ℕ), (resultList outcome l i).length = l.length := by
  intro l
  induction l with
  | nil => intro i; rfl
  | cons a rest ih => intro i; simp [resultList, ih]

theorem resultList_get (outcome : ℕ → StepOutcome) :
    ∀ (l : List String) (i j : ℕ),
      (resultList outcome l i).get? j =
        (l.get? j).map (fun a => (a, outcomeSuccess outcome (i + j))) := by
  intro l
  induction l with
  | nil => intro i j; simp [resultList]
  | cons a rest ih =>
    intro i j
    cases j with
    | zero => simp [resultList]
    | succ j =>
      simp only [resultList, List.get?_cons_succ]
      rw [ih (i + 1) j]
      have hidx : i + 1 + j = i + (j + 1) := by omega
      rw [hidx]

theorem processedState_results (outcome : ℕ → StepOutcome) (clock : ℕ → ℚ) :
    ∀ (l : List String) (i : ℕ) (st : TaskState),
      (processedState outcome clock l i st).results =
        st.results ++ resultList outcome l i := by
  intro l
  induction l with
  | nil => intro i st; simp [processedState, resultList]
  | cons a rest ih =>
    intro i st
    simp [processedState, resultList, appendResult, ih]

theorem processedState_attempted (outcome : ℕ → StepOutcome) (clock : ℕ → ℚ) :
    ∀ (l : List String) (i : ℕ) (st : TaskState),
      (processedState outcome clock l i st).attempted = st.attempted ++ l := by
  intro l
  induction l with
  | nil => intro i st; simp [processedState]
  | cons a rest ih =>
    intro i st
    simp [processedState, appendResult, ih]

theorem processedState_status (outcome : ℕ → StepOutcome) (clock : ℕ → ℚ) :
    ∀ (l : List String) (i : ℕ) (st : TaskState),
      (processedState outcome clock l i st).status = st.status := by
  intro l
  induction l with
  | nil => intro i st; rfl
  | cons a rest ih => intro i st; simp [processedState, appendResult, ih]

theorem processedState_fail_count (outcome : ℕ → StepOutcome) (clock : ℕ → ℚ) :
    ∀ (l : List String) (i : ℕ) (st : TaskState),
      (processedState outcome clock l i st).fail_count =
        st.fail_count + (resultList outcome l i).countP (fun p => !p.2) := by
  intro l
  induction l with
  | nil => intro i st; simp [processedState, resultList]
  | cons a rest ih =>
    intro i st
    rw [processedState, ih, resultList]
    simp only [appendResult, List.countP_cons]
    cases hs : outcomeSuccess outcome i <;> simp <;> omega

theorem processedState_success_count (outcome : ℕ → StepOutcome) (clock : ℕ → ℚ) :
    ∀ (l : List String) (i : ℕ) (st : TaskState),
      (processedState outcome clock l i st).success_count =
        st.success_count + (resultList outcome l i).countP (fun p => p.2) := by
  intro l
  induction l with
  | nil => intro i st; simp [processedState, resultList]
  | cons a rest ih =>
    intro i st
    rw [processedState, ih, resultList]
    simp only [appendResult, List.countP_cons]
    cases hs : outcomeSuccess outcome i <;> simp <;> omega

/-- After `m` iterations in which the cancellation flag reads false at both
check points and no iteration raises `TaskCancelledError`, the loop state
is the clean fold over the first `m` accounts. -/
theorem runRefreshLoop_unroll (outcome : ℕ → StepOutcome) (clock : ℕ → ℚ)
    (cancelFlag : ℕ → Bool) :
    ∀ (m : ℕ) (accounts : List String) (i : ℕ) (st : TaskState),
      m ≤ accounts.length →
      (∀ j, j < 2 * m → cancelFlag (2 * i + j) = false) →
      (∀ j, j < m → outcome (i + j) ≠ .cancelExn) →
      runRefreshLoop outcome clock cancelFlag accounts i st =
        runRefreshLoop outcome clock cancelFlag (accounts.drop m) (i + m)
          (processedState outcome clock (accounts.take m) i st) := by
  intro m
  induction m with
  | zero =>
    intro accounts i st _ _ _
    simp [processedState]
  | succ m ih =>
    intro accounts i st hlen hflag hout
    match accounts with
    | [] => simp at hlen
    | a :: rest =>
      have hf0 : cancelFlag (2 * i) = false := by
        have := hflag 0 (by omega)
        simpa using this
      have hf1 : cancelFlag (2 * i + 1) = false := by
        have := hflag 1 (by omega)
        simpa using this
      have ho0 : outcome i ≠ .cancelExn := by
        have := hout 0 (by omega)
        simpa using this
      rw [runRefreshLoop]
      rw [if_neg (by simp [hf0]), if_neg ho0]
      simp only [hf1, Bool.false_eq_true, if_false]
      rw [ih rest (i + 1) _ (by simpa using hlen)
        (fun j hj => by
          have := hflag (j + 2) (by omega)
          simpa [show 2 * (i + 1) + j = 2 * i + (j + 2) by omega] using this)
        (fun j hj => by
          have := hout (j + 1) (by omega)
          simpa [show i + 1 + j = i + (j + 1) by omega] using this)]
      simp only [List.drop_succ_cons, List.take_succ_cons, processedState]
      ring_nf

/-- C1: if the cancellation flag is first observed set before the engine
starts account `k` of its batch (the first `k - 1` accounts having run
uninterrupted), the task ends with status cancelled, a finish timestamp
recorded, exactly `k - 1` entries in its results list, and
`_refresh_one` (hence the Automation Adapter) never invoked for account
`k` or any later account of the batch. -/
theorem cancel_before_account_k (accounts : List String) (k : ℕ)
    (outcome : ℕ → StepOutcome) (clock : ℕ → ℚ) (cancelFlag : ℕ → Bool)
    (t0 : String → Option ℚ)
    (hk1 : 1 ≤ k) (hkn : k ≤ accounts.length)
    (hbefore : ∀ j, j < 2 * k - 3 → cancelFlag j = false)
    (hset : cancelFlag (2 * k - 2) = true)
    (hnoc : ∀ i, i < k - 1 → outcome i ≠ .cancelExn) :
    (runRefreshTask outcome clock cancelFlag accounts t0).status = .cancelled ∧
    (runRefreshTask outcome clock cancelFlag accounts t0).finished_at.isSome = true ∧
    (runRefreshTask outcome clock cancelFlag accounts t0).results.length = k - 1 ∧
    (runRefreshTask outcome clock cancelFlag accounts t0).attempted =
      accounts.take (k - 1) := by
  obtain ⟨c, rfl⟩ : ∃ c, k = c + 1 := ⟨k - 1, by omega⟩
  have hb : ∀ j, j < 2 * c - 1 → cancelFlag j = false := fun j hj =>
    hbefore j (by omega)
  have hs : cancelFlag (2 * c) = true := by
    have h2 : 2 * (c + 1) - 2 = 2 * c := by omega
    rw [h2] at hset
    exact hset
  have hn : ∀ i, i < c → outcome i ≠ .cancelExn := fun i hi => hnoc i (by omega)
  have hcsub : c + 1 - 1 = c := by omega
  rw [hcsub]
  unfold runRefreshTask
  rcases Nat.eq_zero_or_pos c with hc0 | hcpos
  · subst hc0
    rcases accounts with _ | ⟨a, rest⟩
    · simp at hkn
    · rw [runRefreshLoop]
      rw [if_pos hs]
      exact ⟨rfl, rfl, rfl, rfl⟩
  · by_cases hpost : cancelFlag (2 * (c - 1) + 1) = true
    · obtain ⟨c1, rfl⟩ : ∃ c1, c = c1 + 1 := ⟨c - 1, by omega⟩
      have hc1 : c1 + 1 - 1 = c1 := by omega
      rw [hc1] at hpost
      rw [runRefreshLoop_unroll outcome clock cancelFlag c1 accounts 0 (initTask t0)
        (by omega)
        (fun j hj => by simpa using hb j (by omega))
        (fun j hj => by simpa using hn j (by omega))]
      rcases hd : accounts.drop c1 with _ | ⟨b, rest2⟩
      · have := congrArg List.length hd
        simp only [List.length_drop, List.length_nil] at this
        omega
      · have hget : accounts[c1]? = some b := by
          have h0 : (accounts.drop c1)[0]? = accounts[c1 + 0]? :=
            List.getElem?_drop accounts c1 0
          rw [hd] at h0
          simpa using h0.symm
        have hpre : cancelFlag (2 * c1) = false := hb (2 * c1) (by omega)
        rw [runRefreshLoop]
        rw [if_neg (by simp [hpre])]
        rw [if_neg (by simpa using hn c1 (by omega))]
        rw [if_pos (show cancelFlag (2 * (0 + c1) + 1) = true by simpa using hpost)]
        refine ⟨rfl, rfl, ?_, ?_⟩
        · simp only [appendResult, List.length_append,
            processedState_results outcome clock, resultList_length, initTask,
            List.nil_append, List.length_take, List.length_cons, List.length_nil]
          omega
        · simp only [appendResult, processedState_attempted outcome clock, initTask,
            List.nil_append]
          rw [List.take_succ, hget]
          rfl
    · have hb2 : ∀ j, j < 2 * c → cancelFlag j = false := by
        intro j hj
        rcases Nat.lt_or_ge j (2 * c - 1) with hj1 | hj1
        · exact hb j hj1
        · have hjeq : j = 2 * (c - 1) + 1 := by omega
          subst hjeq
          cases hflag : cancelFlag (2 * (c - 1) + 1)
          · rfl
          · exact absurd hflag hpost
      rw [runRefreshLoop_unroll outcome clock cancelFlag c accounts 0 (initTask t0)
        (by omega)
        (fun j hj => by simpa using hb2 j (by omega))
        (fun j hj => by simpa using hn j (by omega))]
      rcases hd : accounts.drop c with _ | ⟨b, rest2⟩
      · have := congrArg List.length hd
        simp only [List.length_drop, List.length_nil] at this
        omega
      · rw [runRefreshLoop]
        rw [if_pos (by simpa using hs)]
        refine ⟨rfl, rfl, ?_, ?_⟩
        · simp only [processedState_results outcome clock, resultList_length, initTask,
            List.nil_append, List.length_take]
          omega
        · simp only [processedState_attempted outcome clock, initTask,
            List.nil_append]

theorem cancel_before_account_k_witness :
    (1 : ℕ) ≤ 2 ∧ 2 ≤ (["a1", "a2", "a3"] : List String).length ∧
    (∀ j, j < 2 * 2 - 3 → (fun j => decide (2 ≤ j)) j = false) ∧
    (fun j => decide (2 ≤ j)) (2 * 2 - 2) = true ∧
    (∀ i, i < 2 - 1 → (fun _ : ℕ => StepOutcome.res true) i ≠ .cancelExn) ∧
    ((runRefreshTask (fun _ => .res true) (fun i => (i : ℚ)) (fun j => decide (2 ≤ j))
        ["a1", "a2", "a3"] (fun _ => none)).status = .cancelled ∧
     (runRefreshTask (fun _ => .res true) (fun i => (i : ℚ)) (fun j => decide (2 ≤ j))
        ["a1", "a2", "a3"] (fun _ => none)).finished_at.isSome = true ∧
     (runRefreshTask (fun _ => .res true) (fun i => (i : ℚ)) (fun j => decide (2 ≤ j))
        ["a1", "a2", "a3"] (fun _ => none)).results.length = 2 - 1 ∧
     (runRefreshTask (fun _ => .res true) (fun i => (i : ℚ)) (fun j => decide (2 ≤ j))
        ["a1", "a2", "a3"] (fun _ => none)).attempted =
       (["a1", "a2", "a3"] : List String).take (2 - 1)) :=
  ⟨by decide, by decide, by decide, by decide, by decide,
   cancel_before_account_k ["a1", "a2", "a3"] 2 (fun _ => .res true)
     (fun i => (i : ℚ)) (fun j => decide (2 ≤ j)) (fun _ => none)
     (by decide) (by decide) (by decide) (by decide) (by decide)⟩

/-- C2: a refresh task that processes its whole batch with no cancellation
ends with status success exactly when its fail count is zero and with
status failed exactly when at least one account failed; an exception
raised by one account is caught and recorded as that account's failed
result, and the loop reaches every account (the results list covers the
whole batch). -/
theorem complete_task_status (accounts : List String)
    (outcome : ℕ → StepOutcome) (clock : ℕ → ℚ) (cancelFlag : ℕ → Bool)
    (t0 : String → Option ℚ)
    (hflag : ∀ j, cancelFlag j = false)
    (hnoc : ∀ i, outcome i ≠ .cancelExn) :
    ((runRefreshTask outcome clock cancelFlag accounts t0).status = .success ↔
       (runRefreshTask outcome clock cancelFlag accounts t0).fail_count = 0) ∧
    ((runRefreshTask outcome clock cancelFlag accounts t0).status = .failed ↔
       (runRefreshTask outcome clock cancelFlag accounts t0).fail_count ≠ 0) ∧
    (runRefreshTask outcome clock cancelFlag accounts t0).results.length =
      accounts.length ∧
    (∀ i, i < accounts.length → outcome i = .exn →
       (runRefreshTask outcome clock cancelFlag accounts t0).results.get? i =
         (accounts.get? i).map (fun a => (a, false))) := by
  have hrw : runRefreshTask outcome clock cancelFlag accounts t0 =
      runRefreshLoop outcome clock cancelFlag [] (0 + accounts.length)
        (processedState outcome clock accounts 0 (initTask t0)) := by
    unfold runRefreshTask
    rw [runRefreshLoop_unroll outcome clock cancelFlag accounts.length accounts 0
      (initTask t0) le_rfl (fun j _ => hflag _) (fun j _ => hnoc _)]
    rw [List.drop_length, List.take_length]
  rw [hrw]
  rw [runRefreshLoop]
  rw [if_neg (by simp [hflag])]
  have hres : (processedState outcome clock accounts 0 (initTask t0)).results =
      resultList outcome accounts 0 := by
    rw [processedState_results]
    simp [initTask]
  have hfail : (processedState outcome clock accounts 0 (initTask t0)).fail_count =
      (resultList outcome accounts 0).countP (fun p => !p.2) := by
    rw [processedState_fail_count]
    simp [initTask]
  refine ⟨?_, ?_, ?_, ?_⟩
  · by_cases hfc : (processedState outcome clock accounts 0 (initTask t0)).fail_count = 0 <;>
      simp [hfc]
  · by_cases hfc : (processedState outcome clock accounts 0 (initTask t0)).fail_count = 0 <;>
      simp [hfc]
  · simp only [hres, resultList_length]
  · intro i hi hexn
    simp only [hres]
    rw [resultList_get]
    have hsucc : outcomeSuccess outcome (0 + i) = false := by
      simp [outcomeSuccess, hexn]
    rw [hsucc]

theorem complete_task_status_witness :
    (∀ j, (fun _ : ℕ => false) j = false) ∧
    (∀ i, (fun i => if i = 0 then StepOutcome.exn else StepOutcome.res true) i ≠
       .cancelExn) ∧
    (((runRefreshTask (fun i => if i = 0 then .exn else .res true) (fun i => (i : ℚ))
         (fun _ => false) ["a1", "a2"] (fun _ => none)).status = .success ↔
       (runRefreshTask (fun i => if i = 0 then .exn else .res true) (fun i => (i : ℚ))
         (fun _ => false) ["a1", "a2"] (fun _ => none)).fail_count = 0) ∧
     ((runRefreshTask (fun i => if i = 0 then .exn else .res true) (fun i => (i : ℚ))
         (fun _ => false) ["a1", "a2"] (fun _ => none)).status = .failed ↔
       (runRefreshTask (fun i => if i = 0 then .exn else .res true) (fun i => (i : ℚ))
         (fun _ => false) ["a1", "a2"] (fun _ => none)).fail_count ≠ 0) ∧
     (runRefreshTask (fun i => if i = 0 then .exn else .res true) (fun i => (i : ℚ))
        (fun _ => false) ["a1", "a2"] (fun _ => none)).results.length =
       (["a1", "a2"] : List String).length ∧
     (∀ i, i < (["a1", "a2"] : List String).length →
        (fun i => if i = 0 then StepOutcome.exn else StepOutcome.res true) i = .exn →
        (runRefreshTask (fun i => if i = 0 then .exn else .res true) (fun i => (i : ℚ))
           (fun _ => false) ["a1", "a2"] (fun _ => none)).results.get? i =
          ((["a1", "a2"] : List String).get? i).map (fun a => (a, false)))) :=
  ⟨fun _ => rfl,
   by intro i; dsimp only; split_ifs <;> decide,
   complete_task_status ["a1", "a2"] (fun i => if i = 0 then .exn else .res true)
     (fun i => (i : ℚ)) (fun _ => false) (fun _ => none) (fun _ => rfl)
     (by intro i; dsimp only; split_ifs <;> decide)⟩

theorem length_countP_bool (l : List (String × Bool)) :
    l.length = l.countP (fun p => p.2) + l.countP (fun p => !p.2) := by
  induction l with
  | nil => rfl
  | cons a rest ih =>
    simp only [List.length_cons, List.countP_cons]
    cases hp : a.2 <;> simp [hp] <;> omega

theorem taskInv_appendResult (st : TaskState) (a : String) (s : Bool) (t : ℚ)
    (h : taskInv st) : taskInv (appendResult st a s t) := by
  obtain ⟨h1, h2, h3⟩ := h
  cases s
  · exact ⟨by simp [appendResult, h1], by simp [appendResult, List.countP_append, h2],
      by simp [appendResult, List.countP_append, List.countP_cons, h3]⟩
  · exact ⟨by simp [appendResult, h1], by
      simp [appendResult, List.countP_append, List.countP_cons, h2],
      by simp [appendResult, List.countP_append, List.countP_cons, h3]⟩

theorem runRefreshLoop_inv (outcome : ℕ → StepOutcome) (clock : ℕ → ℚ)
    (cancelFlag : ℕ → Bool) :
    ∀ (l : List String) (i : ℕ) (st : TaskState), taskInv st →
      taskInv (runRefreshLoop outcome clock cancelFlag l i st) := by
  intro l
  induction l with
  | nil =>
    intro i st h
    rw [runRefreshLoop]
    split_ifs <;> exact h
  | cons a rest ih =>
    intro i st h
    rw [runRefreshLoop]
    have hstep : taskInv (appendResult { st with attempted := st.attempted ++ [a] } a
        (outcomeSuccess outcome i) (clock i)) :=
      taskInv_appendResult _ _ _ _ h
    split_ifs
    · exact h
    · exact h
    · exact hstep
    · exact ih (i + 1) _ hstep

/-- C10: in the terminal state of the per-account loop, under any outcome
pattern and any cancellation flag behaviour, progress equals the length
of the results list, the success and fail counters count exactly the
successful and the unsuccessful results, and progress equals their sum;
each appended result bumps exactly one of the two counters. -/
theorem progress_counter_consistency (outcome : ℕ → StepOutcome) (clock : ℕ → ℚ)
    (cancelFlag : ℕ → Bool) (accounts : List String) (t0 : String → Option ℚ) :
    (runRefreshTask outcome clock cancelFlag accounts t0).progress =
      (runRefreshTask outcome clock cancelFlag accounts t0).results.length ∧
    (runRefreshTask outcome clock cancelFlag accounts t0).success_count =
      (runRefreshTask outcome clock cancelFlag accounts t0).results.countP
        (fun p => p.2) ∧
    (runRefreshTask outcome clock cancelFlag accounts t0).fail_count =
      (runRefreshTask outcome clock cancelFlag accounts t0).results.countP
        (fun p => !p.2) ∧
    (runRefreshTask outcome clock cancelFlag accounts t0).progress =
      (runRefreshTask outcome clock cancelFlag accounts t0).success_count +
        (runRefreshTask outcome clock cancelFlag accounts t0).fail_count := by
  unfold runRefreshTask
  have h := runRefreshLoop_inv outcome clock cancelFlag accounts 0 (initTask t0)
    ⟨rfl, rfl, rfl⟩
  obtain ⟨h1, h2, h3⟩ := h
  refine ⟨h1, h2, h3, ?_⟩
  rw [h1, h2, h3]
  exact length_countP_bool _

/-! ## RequestCode retry structure -/

theorem clickAttemptLoop_allFail (click : ℕ → Bool) (hfail : ∀ n, click n = false)
    (g : ℕ) : clickAttemptLoop click 3 0 g = ⟨false, 3, [15, 30, 60]⟩ := by
  simp [clickAttemptLoop, hfail, sendRetryDelays]

theorem clickSendCodeButton_allFail (env : SendEnv) (hbtn : env.directBtn = true)
    (hfail : ∀ n, env.click n = false) (g : ℕ) :
    clickSendCodeButton env g = ⟨false, 3, [15, 30, 60]⟩ := by
  rw [clickSendCodeButton, if_pos hbtn, maxSendAttempts]
  exact clickAttemptLoop_allFail env.click hfail g

theorem runFlowSendCode_allFail (env : SendEnv) (hbtn : env.directBtn = true)
    (hfail : ∀ n, env.click n = false) :
    runFlowSendCode env =
      ⟨false, 9, [15, 30, 60, 15, 15, 30, 60, 30, 15, 30, 60]⟩ := by
  simp [runFlowSendCode, maxSendRounds, sendRoundsLoop, sendRoundDelays,
    clickSendCodeButton_allFail env hbtn hfail]

theorem clickAttemptLoop_clicks_le (click : ℕ → Bool) :
    ∀ (r l g : ℕ), (clickAttemptLoop click r l g).clicks ≤ r := by
  intro r
  induction r with
  | zero => intro l g; simp [clickAttemptLoop]
  | succ r ih =>
    intro l g
    rw [clickAttemptLoop]
    by_cases hc : click g
    · simp [hc]
    · simp only [hc, Bool.false_eq_true, if_false]
      have h := ih (l + 1) (g + 1)
      simpa using Nat.succ_le_succ h

theorem clickSendCodeButton_clicks_le (env : SendEnv) (g : ℕ) :
    (clickSendCodeButton env g).clicks ≤ 3 := by
  rw [clickSendCodeButton]
  split_ifs
  · exact clickAttemptLoop_clicks_le env.click maxSendAttempts 0 g
  · exact clickAttemptLoop_clicks_le env.click maxSendAttempts 0 g
  · simp
  · simp

theorem sendRoundsLoop_clicks_le (env : SendEnv) :
    ∀ (r roundIdx g : ℕ), (sendRoundsLoop env r roundIdx g).clicks ≤ 3 * r := by
  intro r
  induction r with
  | zero => intro roundIdx g; simp [sendRoundsLoop]
  | succ r ih =>
    intro roundIdx g
    rw [sendRoundsLoop]
    have hres := clickSendCodeButton_clicks_le env g
    by_cases hok : (clickSendCodeButton env g).ok
    · simp only [hok, if_true]
      omega
    · simp only [hok, Bool.false_eq_true, if_false]
      by_cases hr : r = 0
      · simp only [hr, if_true]
        omega
      · simp only [hr, if_false]
        have h2 := ih (roundIdx + 1) (g + (clickSendCodeButton env g).clicks)
        omega

/-- C7 counterexample: with the send button present and every click
attempt failing (for example each one hitting the risk-control signal),
the RequestCode step performs 9 send attempts, not at most 3: the round
loop in `_run_flow` retries the whole `_click_send_code_button` call up
to 3 times, and that call itself clicks up to 3 times per round.  The
recorded sleep sequence is also not the claimed single 15, 30, 60
escalation. -/
theorem requestcode_attempts_counterexample :
    (runFlowSendCode ⟨true, false, false, fun _ => false⟩).clicks = 9 ∧
    ¬ ((runFlowSendCode ⟨true, false, false, fun _ => false⟩).clicks ≤ 3) ∧
    (runFlowSendCode ⟨true, false, false, fun _ => false⟩).delays =
      [15, 30, 60, 15, 15, 30, 60, 30, 15, 30, 60] := by
  decide

/-- C7 amended: the RequestCode step performs at most 9 send attempts,
organised as up to 3 rounds of up to 3 clicks each; with the send button
present and every attempt failing (including all-risk-control runs) it
performs exactly 9 attempts with delays 15, 30, 60 seconds after the
failed clicks of each round plus 15 or 30 seconds between rounds, and
then terminates with the send-code failure outcome without ever reaching
the wait-for-code-input step. -/
theorem requestcode_retry_structure (env : SendEnv)
    (hbtn : env.directBtn = true) (hfail : ∀ n, env.click n = false) :
    runFlowSendCode env =
      ⟨false, 9, [15, 30, 60, 15, 15, 30, 60, 30, 15, 30, 60]⟩ ∧
    requestCodeStep env = Except.error "send code failed after retries" ∧
    reachesAwaitCodeInput env = false ∧
    (∀ env2 : SendEnv, (runFlowSendCode env2).clicks ≤ 9) := by
  have hall := runFlowSendCode_allFail env hbtn hfail
  refine ⟨hall, ?_, ?_, ?_⟩
  · rw [requestCodeStep, hall]
    rfl
  · rw [reachesAwaitCodeInput, hall]
  · intro env2
    have h := sendRoundsLoop_clicks_le env2 maxSendRounds 0 0
    simpa [runFlowSendCode, maxSendRounds] using h

theorem requestcode_retry_structure_witness :
    (⟨true, false, false, fun _ => false⟩ : SendEnv).directBtn = true ∧
    (∀ n, (⟨true, false, false, fun _ => false⟩ : SendEnv).click n = false) ∧
    (runFlowSendCode ⟨true, false, false, fun _ => false⟩ =
       ⟨false, 9, [15, 30, 60, 15, 15, 30, 60, 30, 15, 30, 60]⟩ ∧
     requestCodeStep ⟨true, false, false, fun _ => false⟩ =
       Except.error "send code failed after retries" ∧
     reachesAwaitCodeInput ⟨true, false, false, fun _ => false⟩ = false ∧
     (∀ env2 : SendEnv, (runFlowSendCode env2).clicks ≤ 9)) :=
  ⟨rfl, fun _ => rfl,
   requestcode_retry_structure ⟨true, false, false, fun _ => false⟩ rfl fun _ => rfl⟩

/-! ## AcquireCode: poll, resend, poll again -/

theorem pollAttempts_none (fetch : ℕ → Option String) :
    ∀ (r g : ℕ), (∀ i, g ≤ i → i < g + r → fetch i = none) →
      pollAttempts fetch r g = (none, r) := by
  intro r
  induction r with
  | zero => intro g _; rfl
  | succ r ih =>
    intro g h
    rw [pollAttempts, h g le_rfl (by omega)]
    simp [ih (g + 1) (fun i hi1 hi2 => h i (by omega) (by omega))]

theorem poll_budget : max 1 (15 / 5) = 3 := by norm_num

theorem poll_for_code_none (fetch : ℕ → Option String) (g : ℕ)
    (h : ∀ i, g ≤ i → i < g + 3 → fetch i = none) :
    poll_for_code true fetch 15 5 g = (none, 3) := by
  rw [poll_for_code]
  simp only [Bool.not_true, Bool.false_eq_true, if_false]
  rw [poll_budget]
  exact pollAttempts_none fetch 3 g h

theorem poll_for_code_hit (fetch : ℕ → Option String) (g : ℕ) (c : String)
    (h : fetch g = some c) : poll_for_code true fetch 15 5 g = (some c, 1) := by
  rw [poll_for_code]
  simp only [Bool.not_true, Bool.false_eq_true, if_false]
  rw [poll_budget, pollAttempts, h]

/-- C8: the AcquireCode step runs one `poll_for_code(timeout=15, interval=5)`
(3 mailbox fetches); if it times out and no resend control is found, the
attempt ends with the code-timeout failure after those 3 fetches; if it
times out, the resend succeeds and the second poll (same 3-fetch budget)
also times out, the attempt ends with the after-resend code-timeout
failure after exactly 6 fetches; if a poll returns a code, that exact
code is what the flow submits. -/
theorem acquire_code_step_behaviour :
    (∀ (env : AcquireEnv), env.hasEmail = true →
       (∀ i, i < 3 → env.fetch i = none) → env.resendBtn = false →
       acquireCodeStep env = (Except.error "verification code timeout", 3)) ∧
    (∀ (env : AcquireEnv), env.hasEmail = true →
       (∀ i, i < 6 → env.fetch i = none) → env.resendBtn = true →
       acquireCodeStep env =
         (Except.error "verification code timeout after resend", 6)) ∧
    (∀ (env : AcquireEnv) (c : String), env.hasEmail = true →
       (∀ i, i < 3 → env.fetch i = none) → env.resendBtn = true →
       env.fetch 3 = some c →
       acquireCodeStep env = (Except.ok c, 4) ∧ submittedCode env = some c) ∧
    (∀ (env : AcquireEnv) (c : String),
       (acquireCodeStep env).1 = Except.ok c → submittedCode env = some c) := by
  refine ⟨?_, ?_, ?_, ?_⟩
  · intro env he hf hres
    rw [acquireCodeStep, he,
      poll_for_code_none env.fetch 0 (fun i _ hi2 => hf i (by omega))]
    simp [hres]
  · intro env he hf hres
    rw [acquireCodeStep, he,
      poll_for_code_none env.fetch 0 (fun i _ hi2 => hf i (by omega))]
    simp only [hres, if_true]
    rw [poll_for_code_none env.fetch 3 (fun i hi1 hi2 => hf i (by omega))]
    rfl
  · intro env c he hf hres hc
    have hacq : acquireCodeStep env = (Except.ok c, 4) := by
      rw [acquireCodeStep, he,
        poll_for_code_none env.fetch 0 (fun i _ hi2 => hf i (by omega))]
      simp only [hres, if_true]
      rw [poll_for_code_hit env.fetch 3 c hc]
      rfl
    exact ⟨hacq, by rw [submittedCode, hacq]⟩
  · intro env c hok
    rw [submittedCode, hok]

theorem acquire_code_step_behaviour_witness :
    ((⟨true, fun _ => none, false⟩ : AcquireEnv).hasEmail = true ∧
     (∀ i, i < 3 → (⟨true, fun _ => none, false⟩ : AcquireEnv).fetch i = none) ∧
     acquireCodeStep ⟨true, fun _ => none, false⟩ =
       (Except.error "verification code timeout", 3)) ∧
    ((∀ i, i < 6 → (⟨true, fun _ => none, true⟩ : AcquireEnv).fetch i = none) ∧
     acquireCodeStep ⟨true, fun _ => none, true⟩ =
       (Except.error "verification code timeout after resend", 6)) ∧
    ((∀ i, i < 3 →
        (⟨true, fun i => if i = 3 then some "482913" else none, true⟩ :
          AcquireEnv).fetch i = none) ∧
     acquireCodeStep ⟨true, fun i => if i = 3 then some "482913" else none, true⟩ =
       (Except.ok "482913", 4) ∧
     submittedCode ⟨true, fun i => if i = 3 then some "482913" else none, true⟩ =
       some "482913") :=
  ⟨⟨rfl, by decide,
    acquire_code_step_behaviour.1 ⟨true, fun _ => none, false⟩ rfl
      (fun i _ => rfl) rfl⟩,
   ⟨by decide,
    acquire_code_step_behaviour.2.1 ⟨true, fun _ => none, true⟩ rfl
      (fun i _ => rfl) rfl⟩,
   ⟨by decide,
    (acquire_code_step_behaviour.2.2.1
      ⟨true, fun i => if i = 3 then some "482913" else none, true⟩ "482913" rfl
      (by decide) rfl (by decide)).1,
    (acquire_code_step_behaviour.2.2.1
      ⟨true, fun i => if i = 3 then some "482913" else none, true⟩ "482913" rfl
      (by decide) rfl (by decide)).2⟩⟩

/-! ## Daily trigger -/

theorem mem_filter_day (s : List (String × String)) (d x : String) :
    (d, x) ∈ s.filter (fun k => k.1 = d) ↔ (d, x) ∈ s := by
  rw [List.mem_filter]
  simp

theorem runTriggerDay_invariant (times : List String) (d : String) :
    ∀ (obs : List String) (s : List (String × String)),
      (runTriggerDay times d obs s).Nodup ∧
      (∀ t, (d, t) ∈ s → (d, t) ∉ runTriggerDay times d obs s) ∧
      (∀ t, t ∈ times → t ∈ obs →
        (d, t) ∈ runTriggerDay times d obs s ∨ (d, t) ∈ s) := by
  intro obs
  induction obs with
  | nil =>
    intro s
    simp [runTriggerDay]
  | cons t rest ih =>
    intro s
    rw [runTriggerDay]
    by_cases hfire : t ∈ times ∧ (d, t) ∉ s.filter (fun k => k.1 = d)
    · rw [triggerStep]
      rw [if_pos hfire]
      simp only [if_true]
      obtain ⟨hnd, hmem, hcov⟩ := ih ((d, t) :: s.filter (fun k => k.1 = d))
      refine ⟨?_, ?_, ?_⟩
      · exact List.nodup_cons.mpr ⟨hmem t (List.mem_cons_self _ _), hnd⟩
      · intro x hx
        rw [List.mem_cons]
        rintro (hxy | hxr)
        · have hxt : x = t := by
            have := congrArg Prod.snd hxy
            simpa using this
          subst hxt
          exact hfire.2 ((mem_filter_day s d x).mpr hx)
        · exact hmem x (List.mem_cons_of_mem _ ((mem_filter_day s d x).mpr hx)) hxr
      · intro x hxt hxo
        rcases List.mem_cons.mp hxo with hxeq | hxr
        · subst hxeq
          exact Or.inl (List.mem_cons_self _ _)
        · rcases hcov x hxt hxr with hin | hin
          · exact Or.inl (List.mem_cons_of_mem _ hin)
          · rcases List.mem_cons.mp hin with hxy | hxf
            · have hxt2 : x = t := by
                have := congrArg Prod.snd hxy
                simpa using this
              subst hxt2
              exact Or.inl (List.mem_cons_self _ _)
            · exact Or.inr ((mem_filter_day s d x).mp hxf)
    · rw [triggerStep]
      rw [if_neg hfire]
      simp only [Bool.false_eq_true, if_false]
      obtain ⟨hnd, hmem, hcov⟩ := ih (s.filter (fun k => k.1 = d))
      refine ⟨hnd, ?_, ?_⟩
      · intro x hx
        exact hmem x ((mem_filter_day s d x).mpr hx)
      · intro x hxt hxo
        rcases List.mem_cons.mp hxo with hxeq | hxr
        · subst hxeq
          have hin : (d, x) ∈ s.filter (fun k => k.1 = d) := by
            by_contra hniq
            exact hfire ⟨hxt, hniq⟩
          exact Or.inr ((mem_filter_day s d x).mp hin)
        · rcases hcov x hxt hxr with hin | hin
          · exact Or.inl hin
          · exact Or.inr ((mem_filter_day s d x).mp hin)

/-- C9: over any sequence of daily-mode checks within one calendar day,
starting from a fired-key set holding only keys of other days (which the
lazy purge removes), every configured time that is observed fires, and
the list of fired keys has no duplicate, so each configured time fires at
most once per day and firing one configured time never prevents another
configured time from firing the same day. -/
theorem daily_trigger_once_per_time (times : List String) (d : String)
    (obs : List String) (s0 : List (String × String))
    (h0 : ∀ k ∈ s0, k.1 ≠ d) :
    (runTriggerDay times d obs s0).Nodup ∧
    (∀ t, t ∈ times → t ∈ obs → (d, t) ∈ runTriggerDay times d obs s0) := by
  obtain ⟨hnd, _, hcov⟩ := runTriggerDay_invariant times d obs s0
  refine ⟨hnd, fun t ht hobs => ?_⟩
  rcases hcov t ht hobs with h | h
  · exact h
  · exact absurd rfl (h0 (d, t) h)

theorem daily_trigger_once_per_time_witness :
    (∀ k ∈ ([("2026-10-11", "08:00")] : List (String × String)), k.1 ≠ "2026-10-12") ∧
    ((runTriggerDay ["08:00", "20:00"] "2026-10-12" ["08:00", "08:00", "20:00"]
        [("2026-10-11", "08:00")]).Nodup ∧
     (∀ t, t ∈ (["08:00", "20:00"] : List String) →
        t ∈ (["08:00", "08:00", "20:00"] : List String) →
        ("2026-10-12", t) ∈ runTriggerDay ["08:00", "20:00"] "2026-10-12"
          ["08:00", "08:00", "20:00"] [("2026-10-11", "08:00")])) :=
  ⟨by decide,
   daily_trigger_once_per_time ["08:00", "20:00"] "2026-10-12"
     ["08:00", "08:00", "20:00"] [("2026-10-11", "08:00")] (by decide)⟩

end GeminiRefresh
